import Mathlib

/-!
# Verification of the `BotBase` state/status persistence and lifecycle layer

Shallow embedding of `src/bots/base.py` (class `BotBase`): state persistence
(`_load_state` / `_save_state`), status reporting (`update_status`),
construction (`__init__` / `_setup`), the abstract `start` / `stop`
operations, and the `run` lifecycle driver.

The external Redis store is modelled as explicit key/value data threaded
through each operation, together with a health flag: when the connection is
unhealthy every store call raises a connection error, which is how the
Python `redis` client surfaces failures.  Python exceptions are modelled
with `Except`.  The JSON codec used by `_load_state` / `_save_state`
(stdlib `json.loads` / `json.dumps` with default options) is modelled by an
executable encoder and parser over a `Json` value type; numbers are
modelled as integers (floating point is outside the model).
-/

/-- Python exceptions relevant to `BotBase`.  `KeyboardInterrupt` is the
interruption signal; it is not a subclass of `Exception` in Python.  -/
inductive PyErr where
  | keyboardInterrupt : PyErr
  | connectionError : PyErr
  | notImplementedError : PyErr
  | valueError : String → PyErr
  | runtimeError : String → PyErr
  | configError : PyErr
deriving DecidableEq

/-- `str(e)` as used in `run`'s error path. -/
def pyStr : PyErr → String
  | .keyboardInterrupt => "KeyboardInterrupt"
  | .connectionError => "connection error"
  | .notImplementedError => ""
  | .valueError m => m
  | .runtimeError m => m
  | .configError => "config error"

/-- Whether the exception is the interruption signal, i.e. matched by
`except KeyboardInterrupt` in `run`. -/
def PyErr.isKeyboardInterrupt : PyErr → Bool
  | .keyboardInterrupt => true
  | _ => false

/-- The hash record written by `update_status`: exactly the three fields of
the `status_data` dict. -/
structure StatusRecord where
  status : String
  error : Option String
  webhook_url : Option String
deriving DecidableEq

/-- The external Redis store: plain string keys (used by
`_load_state` / `_save_state`) and hash keys (used by `update_status`). -/
structure RedisDB where
  kv : List (String × String)
  hashes : List (String × StatusRecord)
deriving DecidableEq

/-- Python `f"...{x}..."` formatting of `os.getenv` results: `None`
formats as the string `"None"`. -/
def pyFormat : Option String → String
  | some s => s
  | none => "None"

/-- `f"bot_state:{os.getenv('BOT_TOKEN')}"` in `_load_state` / `_save_state`. -/
def state_key (token : Option String) : String :=
  "bot_state:" ++ pyFormat token

/-- `f"bot:{os.getenv('BOT_TOKEN')}"` in `update_status`. -/
def status_key (token : Option String) : String :=
  "bot:" ++ pyFormat token

/-- JSON values, as produced by Python `json.loads` (numbers restricted to
integers). -/
inductive Json where
  | null : Json
  | bool : Bool → Json
  | int : Int → Json
  | str : String → Json
  | arr : List Json → Json
  | obj : List (String × Json) → Json

/-- Whether a JSON value is a mapping (a Python `dict`). -/
def Json.isObj : Json → Bool
  | .obj _ => true
  | _ => false

/-- Lower-case hex digit, as in Python's `'\u%04x'` escapes. -/
def hexChar (d : Nat) : Char :=
  if d < 10 then Char.ofNat (48 + d) else Char.ofNat (87 + d)

/-- Four lower-case hex digits of `n < 0x10000`, most significant first. -/
def toHex4 (n : Nat) : List Char :=
  [hexChar (n / 4096 % 16), hexChar (n / 256 % 16), hexChar (n / 16 % 16), hexChar (n % 16)]

/-- Escaping of one character by Python `json.dumps` with its default
`ensure_ascii=True`: printable ASCII except `"` and `\` is literal,
short escapes for the usual control characters, `\uXXXX` for all other
characters, surrogate pairs above the BMP. -/
def escChar (c : Char) : List Char :=
  if c = '"' then ['\\', '"']
  else if c = '\\' then ['\\', '\\']
  else if c = '\n' then ['\\', 'n']
  else if c = '\t' then ['\\', 't']
  else if c = '\r' then ['\\', 'r']
  else if c.toNat = 8 then ['\\', 'b']
  else if c.toNat = 12 then ['\\', 'f']
  else if c.toNat < 32 then '\\' :: 'u' :: toHex4 c.toNat
  else if c.toNat < 127 then [c]
  else if c.toNat < 65536 then '\\' :: 'u' :: toHex4 c.toNat
  else
    '\\' :: 'u' :: toHex4 (55296 + (c.toNat - 65536) / 1024) ++
      '\\' :: 'u' :: toHex4 (56320 + (c.toNat - 65536) % 1024)

/-- Escaping of a whole string body (no surrounding quotes). -/
def escList : List Char → List Char
  | [] => []
  | c :: cs => escChar c ++ escList cs

/-- Decimal digits of a natural number, as Python `repr`. -/
def natChars (n : Nat) : List Char :=
  if n = 0 then ['0'] else ((Nat.digits 10 n).map Nat.digitChar).reverse

/-- Python integer `repr`, as emitted by `json.dumps` for `int`. -/
def intChars (n : Int) : List Char :=
  if n < 0 then '-' :: natChars n.natAbs else natChars n.toNat

mutual

/-- `json.dumps` with default separators `', '` and `': '`, as a character
list. -/
def encVal : Json → List Char
  | .null => 'n' :: ['u', 'l', 'l']
  | .bool true => 't' :: ['r', 'u', 'e']
  | .bool false => 'f' :: ['a', 'l', 's', 'e']
  | .int n => intChars n
  | .str s => '"' :: escList s.data ++ ['"']
  | .arr xs => '[' :: encItems xs ++ [']']
  | .obj kvs => '\x7b' :: encMembers kvs ++ ['\x7d']

/-- Array items joined by `", "`. -/
def encItems : List Json → List Char
  | [] => []
  | [x] => encVal x
  | x :: y :: tl => encVal x ++ ',' :: ' ' :: encItems (y :: tl)

/-- Object members `"key": value` joined by `", "`. -/
def encMembers : List (String × Json) → List Char
  | [] => []
  | [(k, v)] => '"' :: escList k.data ++ '"' :: ':' :: ' ' :: encVal v
  | (k, v) :: m :: tl =>
      ('"' :: escList k.data ++ '"' :: ':' :: ' ' :: encVal v) ++
        ',' :: ' ' :: encMembers (m :: tl)

end

/-- `json.dumps(state)` as a string. -/
def jsonDumps (v : Json) : String :=
  String.mk (encVal v)

/-- Value of one hex digit, upper or lower case, as accepted by the Python
JSON scanner in `\uXXXX` escapes. -/
def hexVal (c : Char) : Option Nat :=
  if 48 ≤ c.toNat ∧ c.toNat ≤ 57 then some (c.toNat - 48)
  else if 97 ≤ c.toNat ∧ c.toNat ≤ 102 then some (c.toNat - 87)
  else if 65 ≤ c.toNat ∧ c.toNat ≤ 70 then some (c.toNat - 55)
  else none

/-- JSON whitespace, as skipped by the Python scanner. -/
def wsChar (c : Char) : Bool :=
  c = ' ' || c = '\t' || c = '\n' || c = '\r'

/-- Skip leading whitespace. -/
def skipWs (l : List Char) : List Char :=
  l.dropWhile wsChar

/-- Prepend a character to the string part of a partial scan result. -/
def consF (c : Char) : Option (List Char × List Char) → Option (List Char × List Char)
  | some (s, r) => some (c :: s, r)
  | none => none

/-- Scan four hex digits. -/
def pHex4 : List Char → Option (Nat × List Char)
  | h1 :: h2 :: h3 :: h4 :: r =>
    match hexVal h1, hexVal h2, hexVal h3, hexVal h4 with
    | some a, some b, some e, some d => some (((a * 16 + b) * 16 + e) * 16 + d, r)
    | _, _, _, _ => none
  | _ => none

/-- Decode the low half of a surrogate pair: a second `\uXXXX` escape whose
value must lie in the low-surrogate range, combined with the high half
`n`. -/
def pEscPair (n : Nat) : List Char → Option (Char × List Char)
  | b1 :: b2 :: rest =>
    if b1 = '\\' ∧ b2 = 'u' then
      match pHex4 rest with
      | some (m, r3) =>
        if 56320 ≤ m ∧ m < 57344 then
          some (Char.ofNat (65536 + (n - 55296) * 1024 + (m - 56320)), r3)
        else none
      | none => none
    else none
  | _ => none

/-- Decode one escape sequence (the input starts just after a backslash),
returning the decoded character and the remaining input.  Surrogate
escapes must form a valid pair (a model restriction: CPython tolerates
lone surrogates, which are not representable in `Char`). -/
def pEsc : List Char → Option (Char × List Char)
  | [] => none
  | e :: r =>
    if e = '"' then some ('"', r)
    else if e = '\\' then some ('\\', r)
    else if e = '/' then some ('/', r)
    else if e = 'b' then some (Char.ofNat 8, r)
    else if e = 'f' then some (Char.ofNat 12, r)
    else if e = 'n' then some ('\n', r)
    else if e = 'r' then some ('\r', r)
    else if e = 't' then some ('\t', r)
    else if e = 'u' then
      match pHex4 r with
      | some (n, r2) =>
        if 55296 ≤ n ∧ n < 56320 then pEscPair n r2
        else if 56320 ≤ n ∧ n < 57344 then none
        else some (Char.ofNat n, r2)
      | none => none
    else none

/-- Scan a JSON string body after the opening quote, returning the decoded
characters and the input after the closing quote.  Strict mode: raw
control characters are rejected.  The fuel `f` only needs to exceed the
input length (each step consumes at least one character); it makes the
recursion structural. -/
def pStrF : Nat → List Char → Option (List Char × List Char)
  | 0, _ => none
  | f + 1, input =>
    match input with
    | [] => none
    | c :: cs =>
      if c = '"' then some ([], cs)
      else if c = '\\' then
        match pEsc cs with
        | some (d, r) => consF d (pStrF f r)
        | none => none
      else if c.toNat < 32 then none
      else consF c (pStrF f cs)

/-- Scan a JSON string body (fuel instantiated sufficiently). -/
def pString (l : List Char) : Option (List Char × List Char) :=
  pStrF (l.length + 1) l

/-- Scan a JSON natural number: `0`, or a nonzero digit followed by digits
(the scanner's number regexp stops a leading-zero number after the `0`). -/
def pNat (input : List Char) : Option (Nat × List Char) :=
  match input with
  | [] => none
  | c :: r =>
    if c = '0' then some (0, r)
    else if c.isDigit then
      some (((c :: r).takeWhile Char.isDigit).foldl (fun a ch => 10 * a + (ch.toNat - 48)) 0,
            (c :: r).dropWhile Char.isDigit)
    else none

/-- Scan a JSON integer (fractions and exponents are floating point and
outside the model). -/
def pNum (input : List Char) : Option (Int × List Char) :=
  match input with
  | [] => none
  | c :: r =>
    if c = '-' then (pNat r).map (fun p => (-(p.1 : Int), p.2))
    else (pNat (c :: r)).map (fun p => ((p.1 : Int), p.2))

/-- Scan `null`: the input starts just after the `n`. -/
def pNull : List Char → Option (Json × List Char)
  | u :: l1 :: l2 :: r2 =>
    if u = 'u' ∧ l1 = 'l' ∧ l2 = 'l' then some (Json.null, r2) else none
  | _ => none

/-- Scan `true`: the input starts just after the `t`. -/
def pTrue : List Char → Option (Json × List Char)
  | u :: l1 :: l2 :: r2 =>
    if u = 'r' ∧ l1 = 'u' ∧ l2 = 'e' then some (Json.bool true, r2) else none
  | _ => none

/-- Scan `false`: the input starts just after the `f`. -/
def pFalse : List Char → Option (Json × List Char)
  | u :: l1 :: l2 :: l3 :: r2 =>
    if u = 'a' ∧ l1 = 'l' ∧ l2 = 's' ∧ l3 = 'e' then some (Json.bool false, r2)
    else none
  | _ => none

/-- After one array item: either `,` and further items via `recurse`, or
`]` closing the array. -/
def pItemsTail (recurse : List Char → Option (List Json × List Char)) (v : Json) :
    List Char → Option (List Json × List Char)
  | [] => none
  | c2 :: r2 =>
    if c2 = ',' then
      match recurse (skipWs r2) with
      | some (vs, rest2) => some (v :: vs, rest2)
      | none => none
    else if c2 = ']' then some ([v], r2)
    else none

/-- Scan the items of a nonempty JSON array given a scanner `pv` for one
value, consuming the closing bracket.  `g` bounds the number of items. -/
def pItems (pv : List Char → Option (Json × List Char)) :
    Nat → List Char → Option (List Json × List Char)
  | 0, _ => none
  | g + 1, input =>
    match pv input with
    | none => none
    | some (v, rest) => pItemsTail (pItems pv g) v (skipWs rest)

/-- After one object member: either `,` and further members via `recurse`,
or the closing brace. -/
def pMembersTail (recurse : List Char → Option (List (String × Json) × List Char))
    (k : String) (v : Json) :
    List Char → Option (List (String × Json) × List Char)
  | [] => none
  | c3 :: r3 =>
    if c3 = ',' then
      match recurse (skipWs r3) with
      | some (kvs, rest3) => some ((k, v) :: kvs, rest3)
      | none => none
    else if c3 = '\x7d' then some ([(k, v)], r3)
    else none

/-- After an object key: `:`, whitespace, the value via `pv`, then the
member tail. -/
def pMemberRest (pv : List Char → Option (Json × List Char))
    (recurse : List Char → Option (List (String × Json) × List Char))
    (k : String) : List Char → Option (List (String × Json) × List Char)
  | [] => none
  | c1 :: r2 =>
    if c1 = ':' then
      match pv (skipWs r2) with
      | some (v, rest2) => pMembersTail recurse k v (skipWs rest2)
      | none => none
    else none

/-- Scan the members of a nonempty JSON object, consuming the closing
brace. -/
def pMembers (pv : List Char → Option (Json × List Char)) :
    Nat → List Char → Option (List (String × Json) × List Char)
  | 0, _ => none
  | g + 1, input =>
    match input with
    | [] => none
    | c0 :: r =>
      if c0 = '"' then
        match pString r with
        | some (k, rest) =>
          pMemberRest pv (pMembers pv g) (String.mk k) (skipWs rest)
        | none => none
      else none

/-- Wrap a sub-scan result in a `Json` constructor. -/
def wrapRes {α : Type} (ctor : α → Json) :
    Option (α × List Char) → Option (Json × List Char)
  | some (x, rest) => some (ctor x, rest)
  | none => none

/-- Scan a JSON object or the empty object (the input starts just after
the opening brace). -/
def pObjBody (pv : List Char → Option (Json × List Char)) (g : Nat) :
    List Char → Option (Json × List Char)
  | [] => none
  | c1 :: r1 =>
    if c1 = '\x7d' then some (Json.obj [], r1)
    else wrapRes Json.obj (pMembers pv g (c1 :: r1))

/-- Scan a JSON array or the empty array (the input starts just after the
opening bracket). -/
def pArrBody (pv : List Char → Option (Json × List Char)) (g : Nat) :
    List Char → Option (Json × List Char)
  | [] => none
  | c1 :: r1 =>
    if c1 = ']' then some (Json.arr [], r1)
    else wrapRes Json.arr (pItems pv g (c1 :: r1))

/-- Scan one JSON value.  The fuel `f` bounds the nesting depth; the
top-level entry point supplies more fuel than any input can consume. -/
def pVal : Nat → List Char → Option (Json × List Char)
  | 0, _ => none
  | f + 1, input =>
    match input with
    | [] => none
    | c :: r =>
      if c = '"' then wrapRes (fun s => Json.str (String.mk s)) (pString r)
      else if c = '\x7b' then pObjBody (pVal f) f (skipWs r)
      else if c = '[' then pArrBody (pVal f) f (skipWs r)
      else if c = 'n' then pNull r
      else if c = 't' then pTrue r
      else if c = 'f' then pFalse r
      else wrapRes Json.int (pNum (c :: r))

/-- `json.loads`: scan one value surrounded by optional whitespace; fail
with a decode error on any leftover input or scan failure. -/
def jsonLoads (s : String) : Except PyErr Json :=
  match pVal (s.data.length + 1) (skipWs s.data) with
  | some (v, rest) =>
    if skipWs rest = [] then Except.ok v
    else Except.error (PyErr.valueError "Extra data")
  | none => Except.error (PyErr.valueError "Expecting value")


/-- `self._redis.get(key)`: returns the stored payload (or `None`), or
raises a connection error when the store is unreachable. -/
def redis_get (db : RedisDB) (healthy : Bool) (k : String) :
    Except PyErr (Option String) :=
  if healthy then Except.ok (db.kv.lookup k) else Except.error PyErr.connectionError

/-- `self._redis.set(key, value)`: stores the payload, or raises a
connection error when the store is unreachable. -/
def redis_set (db : RedisDB) (healthy : Bool) (k v : String) :
    Except PyErr RedisDB :=
  if healthy then Except.ok ⟨(k, v) :: db.kv, db.hashes⟩
  else Except.error PyErr.connectionError

/-- `self._redis.hmset(key, mapping)`: one bulk write of the three status
fields, or a connection error when the store is unreachable. -/
def redis_hmset (db : RedisDB) (healthy : Bool) (k : String) (rec : StatusRecord) :
    Except PyErr RedisDB :=
  if healthy then Except.ok ⟨db.kv, (k, rec) :: db.hashes⟩
  else Except.error PyErr.connectionError

/-- `BotBase._load_state`:

```
try:
    state_key = f"bot_state:{os.getenv('BOT_TOKEN')}"
    state_data = self._redis.get(state_key)
    if state_data:
        return json.loads(state_data)
except Exception as e:
    logger.error(...)
return {}
```

The inner `Option Json` records whether the `try` body returned a value
(`some`) or fell through to the trailing `return {}` (`none`); the
`except Exception` handler logs and falls through likewise.  The result
is `Except` so that "never raises" is a provable property rather than a
typing artifact. -/
def load_state (token : Option String) (db : RedisDB) (healthy : Bool) :
    Except PyErr Json :=
  let tryBody : Except PyErr (Option Json) := do
    let state_data ← redis_get db healthy (state_key token)
    match state_data with
    | some s =>
      if s ≠ "" then do
        let v ← jsonLoads s
        pure (some v)
      else pure none
    | none => pure none
  match tryBody with
  | Except.ok (some v) => Except.ok v
  | Except.ok none => Except.ok (Json.obj [])
  | Except.error _e => Except.ok (Json.obj [])

/-- `BotBase._save_state`:

```
try:
    state_key = f"bot_state:{os.getenv('BOT_TOKEN')}"
    state_data = json.dumps(self.state)
    self._redis.set(state_key, state_data)
except Exception as e:
    logger.error(...)
```

On failure the handler logs and leaves the store as it was. -/
def save_state (token : Option String) (state : Json) (db : RedisDB)
    (healthy : Bool) : Except PyErr RedisDB :=
  match redis_set db healthy (state_key token) (jsonDumps state) with
  | Except.ok db2 => Except.ok db2
  | Except.error _e => Except.ok db

/-- `BotBase.update_status`:

```
try:
    self._status = status
    status_key = f"bot:{os.getenv('BOT_TOKEN')}"
    status_data = {'status': status, 'error': error, 'webhook_url': webhook_url}
    self._redis.hmset(status_key, status_data)
except Exception as e:
    logger.error(...)
```

Returns the new in-memory `_status` together with the store: the
assignment to `self._status` is the first statement of the `try` block,
so it survives a failing store write. -/
def update_status (token : Option String) (db : RedisDB) (healthy : Bool)
    (status : String) (error : Option String) (webhook_url : Option String) :
    String × RedisDB :=
  match redis_hmset db healthy (status_key token) ⟨status, error, webhook_url⟩ with
  | Except.ok db2 => (status, db2)
  | Except.error _e => (status, db)

/-- The in-memory fields of a constructed bot instance that the claims
refer to: `self.state` and `self._status`. -/
structure BotSelf where
  state : Json
  botStatus : String


/-- `Application.builder().token(os.getenv('BOT_TOKEN')).build()` (external
collaborator): raises a fatal configuration error when the credential is
absent or empty, otherwise succeeds. -/
def build_application (token : Option String) : Except PyErr Unit :=
  match token with
  | none => Except.error PyErr.configError
  | some t => if t = "" then Except.error PyErr.configError else Except.ok ()

/-- `BotBase.__init__` / `BotBase._setup`: build the protocol application
(fatal on bad credential), connect to Redis (lazy, cannot fail here) and
load the initial state.  Note that neither `start` nor `stop` is invoked
here. -/
def construct (token : Option String) (db : RedisDB) (healthy : Bool) :
    Except PyErr BotSelf :=
  do
    let _app ← build_application token
    let st ← load_state token db healthy
    Except.ok ⟨st, "starting"⟩

/-- Calling an abstract method (`BotBase.start` / `BotBase.stop`): when the
subclass did not override it, the base body `raise NotImplementedError`
runs; otherwise the override's outcome (`none` = returned normally)
results. -/
def invoke_abstract (overridden : Bool) (outcome : Option PyErr) : Option PyErr :=
  if overridden then outcome else some PyErr.notImplementedError

/-- Abstract steps of `BotBase.run`, in execution order. -/
inductive RunStep where
  | callStart : RunStep
  | loopForever : RunStep
  | saveState : RunStep
  | callStop : RunStep
  | logRunError : RunStep
  | statusWrite : String → Option String → RunStep
  | closeLoop : RunStep
deriving DecidableEq

/-- Result of `BotBase.run`: the ordered trace of steps, the final store,
the final in-memory `_status`, and the exception (if any) that `run`
itself raises to its caller. -/
structure RunResult where
  trace : List RunStep
  db : RedisDB
  botStatus : String
  raised : Option PyErr
deriving DecidableEq

/-- `BotBase.run`:

```
try:
    logging.basicConfig(...)
    loop = asyncio.get_event_loop()
    loop.run_until_complete(self.start())
    loop.run_forever()
except KeyboardInterrupt:
    logger.info("Stopping bot...")
    self._save_state()
    loop.run_until_complete(self.stop())
except Exception as e:
    logger.error(f"Error running bot: {e}", exc_info=True)
    self.update_status('error', str(e))
finally:
    loop.close()
```

`startErr` is the exception raised by `self.start()` (`none` when it
returns normally); `loopExc` is the exception that eventually breaks
`loop.run_forever()` (the only way it exits here, since nothing calls
`loop.stop()`; blocking forever is outside the model); `stopErr` is the
outcome of `self.stop()` on the interruption path.  An exception raised
by `stop` inside the `except KeyboardInterrupt` handler propagates out of
`run` after the `finally` clause. -/
def run (token : Option String) (state : Json) (selfStatus : String)
    (db : RedisDB) (healthy : Bool) (startErr : Option PyErr) (loopExc : PyErr)
    (stopErr : Option PyErr) : RunResult :=
  let tryTrace : List RunStep :=
    match startErr with
    | some _ => [RunStep.callStart]
    | none => [RunStep.callStart, RunStep.loopForever]
  let exc : PyErr :=
    match startErr with
    | some e => e
    | none => loopExc
  if exc.isKeyboardInterrupt then
    match save_state token state db healthy with
    | Except.ok db1 =>
      ⟨tryTrace ++ [RunStep.saveState, RunStep.callStop, RunStep.closeLoop],
        db1, selfStatus, stopErr⟩
    | Except.error e =>
      ⟨tryTrace ++ [RunStep.saveState, RunStep.closeLoop], db, selfStatus, some e⟩
  else
    let msg := pyStr exc
    let (st2, db2) := update_status token db healthy "error" (some msg) none
    ⟨tryTrace ++ [RunStep.logRunError, RunStep.statusWrite "error" (some msg),
        RunStep.closeLoop], db2, st2, none⟩

/-- Whether a trace step is a StatusRecord write with the given status. -/
def RunStep.isStatusWriteOf (s : String) : RunStep → Bool
  | RunStep.statusWrite s2 _ => s2 == s
  | _ => false

/-- Whether the exception that ends the `try` block of `run` is the
interruption signal (raised either by `start` or while blocked). -/
def interruptSeen (startErr : Option PyErr) (loopExc : PyErr) : Bool :=
  match startErr with
  | some e => e.isKeyboardInterrupt
  | none => loopExc.isKeyboardInterrupt

theorem char_eq_of_toNat {c d : Char} (h : c.toNat = d.toNat) : c = d := by
  have h2 := congrArg Char.ofNat h
  rwa [Char.ofNat_toNat, Char.ofNat_toNat] at h2

theorem char_valid_nat (c : Char) :
    c.toNat < 55296 ∨ (57343 < c.toNat ∧ c.toNat < 1114112) := by
  rcases c.valid with h | ⟨h1, h2⟩
  · exact Or.inl (UInt32.toNat_lt_of_lt (by norm_num) h)
  · exact Or.inr ⟨UInt32.lt_toNat_of_lt (by norm_num) h1,
      UInt32.toNat_lt_of_lt (by norm_num) h2⟩

theorem hexVal_hexChar (d : Nat) (hd : d < 16) : hexVal (hexChar d) = some d := by
  interval_cases d <;> decide

theorem skipWs_not_ws {c : Char} (l : List Char) (h : wsChar c = false) :
    skipWs (c :: l) = c :: l := by
  simp [skipWs, List.dropWhile_cons, h]

theorem takeWhile_append_all {p : Char → Bool} :
    ∀ (l1 l2 : List Char), (∀ a ∈ l1, p a = true) →
      (∀ c, l2.head? = some c → p c = false) →
      (l1 ++ l2).takeWhile p = l1 ∧ (l1 ++ l2).dropWhile p = l2
  | [], l2, _, h2 => by
    cases l2 with
    | nil => simp
    | cons c t =>
      simp [List.takeWhile_cons, List.dropWhile_cons, h2 c rfl]
  | a :: t, l2, h1, h2 => by
    have ha := h1 a (by simp)
    have ih := takeWhile_append_all t l2 (fun x hx => h1 x (by simp [hx])) h2
    simp [List.takeWhile_cons, List.dropWhile_cons, ha, ih.1, ih.2]

theorem pHex4_toHex4 (n : Nat) (hn : n < 65536) (tl : List Char) :
    pHex4 (toHex4 n ++ tl) = some (n, tl) := by
  have e1 := hexVal_hexChar (n / 4096 % 16) (Nat.mod_lt _ (by norm_num))
  have e2 := hexVal_hexChar (n / 256 % 16) (Nat.mod_lt _ (by norm_num))
  have e3 := hexVal_hexChar (n / 16 % 16) (Nat.mod_lt _ (by norm_num))
  have e4 := hexVal_hexChar (n % 16) (Nat.mod_lt _ (by norm_num))
  have hX : ((n / 4096 % 16 * 16 + n / 256 % 16) * 16 + n / 16 % 16) * 16 + n % 16 = n := by
    omega
  simp [toHex4, pHex4, e1, e2, e3, e4, hX]

theorem pStrF_cons (g : Nat) (c : Char) (cs : List Char) :
    pStrF (g + 1) (c :: cs) =
      (if c = '"' then some ([], cs)
       else if c = '\\' then
         match pEsc cs with
         | some (d, r) => consF d (pStrF g r)
         | none => none
       else if c.toNat < 32 then none
       else consF c (pStrF g cs)) := by
  rw [pStrF]

theorem pStrF_escChar (c : Char) {s r : List Char} {tl : List Char}
    (htl : ∀ g, tl.length < g → pStrF g tl = some (s, r)) :
    ∀ f, (escChar c ++ tl).length < f →
      pStrF f (escChar c ++ tl) = some (c :: s, r) := by
  intro f hf
  by_cases h8 : c.toNat < 32
  · -- control characters: short escapes or \u00XX
    obtain ⟨n, hn, hlt⟩ : ∃ n, c.toNat = n ∧ n < 32 := ⟨c.toNat, rfl, h8⟩
    interval_cases n <;>
      (have hc : c = Char.ofNat (c.toNat) := (Char.ofNat_toNat c).symm
       rw [hn] at hc; subst hc
       cases f with
       | zero => exact absurd hf (by simp)
       | succ g =>
         have hg : tl.length < g := by simp [escChar, toHex4, hexChar] at hf; omega
         simp [escChar, toHex4, hexChar, pStrF_cons, pEsc, pHex4, hexVal, consF,
           htl g hg])
  by_cases h1 : c = '"'
  · subst h1
    cases f with
    | zero => exact absurd hf (by simp)
    | succ g =>
      have hg : tl.length < g := by simp [escChar] at hf; omega
      simp [escChar, pStrF_cons, pEsc, consF, htl g hg]
  by_cases h2 : c = '\\'
  · subst h2
    cases f with
    | zero => exact absurd hf (by simp)
    | succ g =>
      have hg : tl.length < g := by simp [escChar] at hf; omega
      simp [escChar, pStrF_cons, pEsc, consF, htl g hg]
  by_cases h9 : c.toNat < 127
  · -- printable ASCII, emitted literally
    have h3 : ¬(c = '\n') := fun h => h8 (by subst h; decide)
    have h4 : ¬(c = '\t') := fun h => h8 (by subst h; decide)
    have h5 : ¬(c = '\r') := fun h => h8 (by subst h; decide)
    have h6 : ¬(c.toNat = 8) := by omega
    have h7 : ¬(c.toNat = 12) := by omega
    cases f with
    | zero => exact absurd hf (by simp)
    | succ g =>
      have hg : tl.length < g := by
        simp [escChar, h1, h2, h3, h4, h5, h6, h7, h8, h9] at hf; omega
      simp [escChar, h1, h2, h3, h4, h5, h6, h7, h8, h9, pStrF_cons, consF, htl g hg]
  · -- \uXXXX escape or surrogate pair
    have h3 : ¬(c = '\n') := fun h => h8 (by subst h; decide)
    have h4 : ¬(c = '\t') := fun h => h8 (by subst h; decide)
    have h5 : ¬(c = '\r') := fun h => h8 (by subst h; decide)
    have h6 : ¬(c.toNat = 8) := by omega
    have h7 : ¬(c.toNat = 12) := by omega
    have hv := char_valid_nat c
    by_cases h10 : c.toNat < 65536
    · -- BMP non-ASCII, never a surrogate by Char validity
      have henc : escChar c = '\\' :: 'u' :: toHex4 c.toNat := by
        simp [escChar, h1, h2, h3, h4, h5, h6, h7, h8, h9, h10]
      rw [henc] at hf ⊢
      cases f with
      | zero => exact absurd hf (by simp)
      | succ g =>
        have hg : tl.length < g := by simp [toHex4] at hf; omega
        have hp := pHex4_toHex4 c.toNat h10 tl
        have hns1 : ¬(55296 ≤ c.toNat ∧ c.toNat < 56320) := by
          rcases hv with hv | hv <;> omega
        have hns2 : ¬(56320 ≤ c.toNat ∧ c.toNat < 57344) := by
          rcases hv with hv | hv <;> omega
        rw [show ('\\' :: 'u' :: toHex4 c.toNat) ++ tl =
          '\\' :: 'u' :: (toHex4 c.toNat ++ tl) by simp]
        rw [pStrF_cons]
        simp [pEsc, hp, hns1, hns2, consF, htl g hg, Char.ofNat_toNat]
    · -- above the BMP: surrogate pair
      have hup : c.toNat < 1114112 := by rcases hv with hv | hv <;> omega
      have hhi : 55296 + (c.toNat - 65536) / 1024 < 65536 := by omega
      have hlo : 56320 + (c.toNat - 65536) % 1024 < 65536 := by omega
      have henc : escChar c =
          '\\' :: 'u' :: toHex4 (55296 + (c.toNat - 65536) / 1024) ++
            '\\' :: 'u' :: toHex4 (56320 + (c.toNat - 65536) % 1024) := by
        simp [escChar, h1, h2, h3, h4, h5, h6, h7, h8, h9, h10]
      rw [henc] at hf ⊢
      cases f with
      | zero => exact absurd hf (by simp)
      | succ g =>
        have hg : tl.length < g := by simp [toHex4] at hf; omega
        have hp1 := pHex4_toHex4 (55296 + (c.toNat - 65536) / 1024) hhi
          ('\\' :: 'u' :: (toHex4 (56320 + (c.toNat - 65536) % 1024) ++ tl))
        have hp2 := pHex4_toHex4 (56320 + (c.toNat - 65536) % 1024) hlo tl
        have hps1 : 55296 ≤ 55296 + (c.toNat - 65536) / 1024 ∧
            55296 + (c.toNat - 65536) / 1024 < 56320 := by omega
        have hps2 : 56320 ≤ 56320 + (c.toNat - 65536) % 1024 ∧
            56320 + (c.toNat - 65536) % 1024 < 57344 := by omega
        have hesc : pEsc ('u' :: (toHex4 (55296 + (c.toNat - 65536) / 1024) ++
            ('\\' :: 'u' :: (toHex4 (56320 + (c.toNat - 65536) % 1024) ++ tl)))) =
            some (c, tl) := by
          rw [pEsc]
          simp only [Char.reduceEq, reduceIte, hp1]
          rw [if_pos hps1, pEscPair,
            if_pos (⟨rfl, rfl⟩ : ('\\' : Char) = '\\' ∧ ('u' : Char) = 'u')]
          simp only [hp2]
          rw [if_pos hps2, show 65536 + (55296 + (c.toNat - 65536) / 1024 - 55296) * 1024 +
            (56320 + (c.toNat - 65536) % 1024 - 56320) = c.toNat by omega,
            Char.ofNat_toNat]
        rw [show ('\\' :: 'u' :: toHex4 (55296 + (c.toNat - 65536) / 1024) ++
              '\\' :: 'u' :: toHex4 (56320 + (c.toNat - 65536) % 1024)) ++ tl =
            '\\' :: 'u' :: (toHex4 (55296 + (c.toNat - 65536) / 1024) ++
              ('\\' :: 'u' :: (toHex4 (56320 + (c.toNat - 65536) % 1024) ++ tl))) by simp]
        rw [pStrF_cons, if_neg (by decide : (('\\' : Char) = '"') -> False),
          if_pos (rfl : ('\\' : Char) = '\\')]
        simp only [hesc]
        rw [htl g hg]
        simp [consF]

theorem pStrF_escList : ∀ (cs rest : List Char) (f : Nat),
    (escList cs ++ '"' :: rest).length < f →
    pStrF f (escList cs ++ '"' :: rest) = some (cs, rest)
  | [], rest, f, hf => by
    cases f with
    | zero => exact absurd hf (by simp)
    | succ g => simp [escList, pStrF_cons]
  | c :: cs, rest, f, hf => by
    have ih : ∀ g, (escList cs ++ '"' :: rest).length < g →
        pStrF g (escList cs ++ '"' :: rest) = some (cs, rest) :=
      fun g hg => pStrF_escList cs rest g hg
    rw [show escList (c :: cs) ++ '"' :: rest =
      escChar c ++ (escList cs ++ '"' :: rest) by simp [escList]]
    refine pStrF_escChar c ih f ?hlen
    simp only [escList, List.length_append, List.append_assoc] at hf ⊢
    omega

theorem pString_escList (cs rest : List Char) :
    pString (escList cs ++ '"' :: rest) = some (cs, rest) := by
  simp only [pString]
  exact pStrF_escList cs rest _ (Nat.lt_succ_self _)

theorem digitChar_isDigit (d : Nat) (hd : d < 10) :
    (Nat.digitChar d).isDigit = true := by
  interval_cases d <;> decide

theorem digitChar_toNat (d : Nat) (hd : d < 10) :
    (Nat.digitChar d).toNat - 48 = d := by
  interval_cases d <;> decide

theorem digitChar_ne_zeroChar (d : Nat) (hd : d < 10) (h0 : d ≠ 0) :
    ¬(Nat.digitChar d = '0') := by
  interval_cases d <;> first | exact absurd rfl h0 | decide

theorem foldl_digitChars (L : List Nat) (hL : ∀ d ∈ L, d < 10) : ∀ (a : Nat),
    ((L.map Nat.digitChar).reverse).foldl (fun acc ch => 10 * acc + (ch.toNat - 48)) a =
      a * 10 ^ L.length + Nat.ofDigits 10 L := by
  induction L with
  | nil => intro a; simp
  | cons d T ih =>
    intro a
    have hd : d < 10 := hL d (by simp)
    have hT : ∀ x ∈ T, x < 10 := fun x hx => hL x (by simp [hx])
    simp only [List.map_cons, List.reverse_cons, List.foldl_append, List.foldl_cons,
      List.foldl_nil, ih hT a, Nat.ofDigits_cons, digitChar_toNat d hd,
      List.length_cons]
    ring

theorem natChars_all_digits (n : Nat) : ∀ c ∈ natChars n, c.isDigit = true := by
  intro c hc
  by_cases h0 : n = 0
  · subst h0; simp [natChars] at hc; subst hc; decide
  · simp only [natChars, h0, if_neg, ite_false, List.mem_reverse, List.mem_map] at hc
    obtain ⟨d, hd, rfl⟩ := hc
    exact digitChar_isDigit d (Nat.digits_lt_base (by norm_num) hd)

theorem natChars_ne_nil (n : Nat) : natChars n ≠ [] := by
  by_cases h0 : n = 0
  · subst h0; simp [natChars]
  · simp [natChars, h0, Nat.digits_ne_nil_iff_ne_zero.mpr h0]

theorem pNat_natChars (n : Nat) (rest : List Char)
    (hrest : ∀ c, rest.head? = some c → c.isDigit = false) :
    pNat (natChars n ++ rest) = some (n, rest) := by
  by_cases h0 : n = 0
  · subst h0
    simp [natChars, pNat]
  · obtain ⟨c, cs, hcons⟩ := List.exists_cons_of_ne_nil (natChars_ne_nil n)
    have hdigs : ∀ x ∈ Nat.digits 10 n, x < 10 :=
      fun x hx => Nat.digits_lt_base (by norm_num) hx
    have hall : ∀ a ∈ c :: cs, a.isDigit = true := by
      rw [← hcons]; exact natChars_all_digits n
    have hcd : c.isDigit = true := hall c (by simp)
    -- the leading character is the most significant digit, hence not '0'
    have hhead : (natChars n).head? = some c := by rw [hcons]; rfl
    have hlast : (Nat.digits 10 n).getLast? = some ((Nat.digits 10 n).getLast
        (Nat.digits_ne_nil_iff_ne_zero.mpr h0)) := List.getLast?_eq_getLast _ _
    have hc0 : ¬(c = '0') := by
      have h2 : (natChars n).head? =
          ((Nat.digits 10 n).getLast? ).map Nat.digitChar := by
        simp [natChars, h0]
      rw [hlast] at h2
      rw [hhead] at h2
      simp at h2
      rw [h2]
      exact digitChar_ne_zeroChar _
        (hdigs _ (List.getLast_mem _))
        (Nat.getLast_digit_ne_zero 10 h0)
    have htake := takeWhile_append_all (p := Char.isDigit) (c :: cs) rest hall
      (fun d hd => hrest d hd)
    rw [hcons, List.cons_append]
    rw [pNat]
    rw [if_neg hc0, if_pos hcd]
    rw [← List.cons_append, htake.1, htake.2]
    have hfold := foldl_digitChars (Nat.digits 10 n) hdigs 0
    rw [Nat.ofDigits_digits] at hfold
    have hrw : c :: cs = ((Nat.digits 10 n).map Nat.digitChar).reverse := by
      rw [← hcons]; simp [natChars, h0]
    rw [hrw, hfold]
    simp

theorem pNum_intChars (n : Int) (rest : List Char)
    (hrest : ∀ c, rest.head? = some c → c.isDigit = false) :
    pNum (intChars n ++ rest) = some (n, rest) := by
  by_cases hneg : n < 0
  · rw [show intChars n = '-' :: natChars n.natAbs by simp [intChars, hneg]]
    rw [List.cons_append, pNum]
    rw [if_pos rfl]
    rw [pNat_natChars n.natAbs rest hrest]
    simp
    rw [abs_of_neg hneg]
    ring
  · rw [show intChars n = natChars n.toNat by simp [intChars, hneg]]
    obtain ⟨c, cs, hcons⟩ := List.exists_cons_of_ne_nil (natChars_ne_nil n.toNat)
    have hcd : c.isDigit = true := by
      have := natChars_all_digits n.toNat c (by rw [hcons]; simp)
      exact this
    have hcm : ¬(c = '-') := by
      intro h; rw [h] at hcd; exact absurd hcd (by decide)
    have hp := pNat_natChars n.toNat rest hrest
    rw [hcons] at hp ⊢
    rw [List.cons_append, pNum, if_neg hcm, ← List.cons_append, hp]
    simp
    omega

theorem json_sizeOf_lt_of_mem : ∀ {x : Json} {xs : List Json},
    x ∈ xs → sizeOf x < sizeOf xs := by
  intro x xs h
  induction h with
  | head as => simp; omega
  | tail b hmem ih => simp; omega

theorem json_sizeOf_lt_of_mem_pair : ∀ {k : String} {v : Json}
    {kvs : List (String × Json)}, (k, v) ∈ kvs → sizeOf v < sizeOf kvs := by
  intro k v kvs h
  induction h with
  | head as => simp; omega
  | tail b hmem ih => simp; omega

/-- Induction over `Json` exposing the elements of arrays and the values
of objects. -/
theorem json_ind (P : Json → Prop) (h0 : P Json.null) (h1 : ∀ b, P (Json.bool b))
    (h2 : ∀ n, P (Json.int n)) (h3 : ∀ s, P (Json.str s))
    (h4 : ∀ xs, (∀ x, x ∈ xs → P x) → P (Json.arr xs))
    (h5 : ∀ kvs, (∀ k v, (k, v) ∈ kvs → P v) → P (Json.obj kvs)) : ∀ v, P v
  | Json.null => h0
  | Json.bool b => h1 b
  | Json.int n => h2 n
  | Json.str s => h3 s
  | Json.arr xs => h4 xs (fun x hx => json_ind P h0 h1 h2 h3 h4 h5 x)
  | Json.obj kvs => h5 kvs (fun k v hkv => json_ind P h0 h1 h2 h3 h4 h5 v)
termination_by v => sizeOf v
decreasing_by
  · have := json_sizeOf_lt_of_mem hx; simp; omega
  · have := json_sizeOf_lt_of_mem_pair hkv; simp; omega

theorem intChars_ne_nil (n : Int) : intChars n ≠ [] := by
  by_cases hneg : n < 0
  · simp [intChars, hneg]
  · simp [intChars, hneg, natChars_ne_nil]

theorem encVal_ne_nil (v : Json) : encVal v ≠ [] := by
  cases v with
  | null => simp [encVal]
  | bool b => cases b <;> simp [encVal]
  | int n => simp [encVal, intChars_ne_nil]
  | str s => simp [encVal]
  | arr xs => simp [encVal]
  | obj kvs => simp [encVal]

theorem intChars_head_digit_or_minus (n : Int) :
    ∀ c, (intChars n).head? = some c → (c.isDigit = true ∨ c = '-') := by
  intro c hc
  by_cases hneg : n < 0
  · simp [intChars, hneg] at hc
    exact Or.inr hc.symm
  · rw [show intChars n = natChars n.toNat by simp [intChars, hneg]] at hc
    obtain ⟨d, ds, hcons⟩ := List.exists_cons_of_ne_nil (natChars_ne_nil n.toNat)
    rw [hcons] at hc
    have hcd : c = d := by have h2 := hc; simp at h2; exact h2.symm
    rw [hcd]
    exact Or.inl (natChars_all_digits n.toNat d (by rw [hcons]; simp))

theorem encVal_head_not_ws (v : Json) :
    ∀ c, (encVal v).head? = some c → wsChar c = false := by
  intro c hc
  cases v with
  | null => simp [encVal] at hc; subst hc; decide
  | bool b => cases b <;> (simp [encVal] at hc; subst hc; decide)
  | int n =>
    simp only [encVal] at hc
    rcases intChars_head_digit_or_minus n c hc with hd | hm
    · cases hws : wsChar c
      · rfl
      · exfalso
        simp [wsChar] at hws
        rcases hws with ((h | h) | h) | h <;> (subst h; exact absurd hd (by decide))
    · subst hm; decide
  | str s => simp [encVal] at hc; subst hc; decide
  | arr xs => simp [encVal] at hc; subst hc; decide
  | obj kvs => simp [encVal] at hc; subst hc; decide

/-- The input after an encoded value never begins with a digit, so the
number scanner cannot overrun. -/
def GoodTail (rest : List Char) : Prop :=
  ∀ c, rest.head? = some c → c.isDigit = false

theorem goodTail_nil : GoodTail [] := by
  intro c hc; cases hc

theorem goodTail_cons {c0 : Char} (h : c0.isDigit = false) (r : List Char) :
    GoodTail (c0 :: r) := by
  intro c hc; simp at hc; subst hc; exact h

theorem digit_or_minus_dispatch (c : Char) (h : c.isDigit = true ∨ c = '-') :
    ¬(c = '"') ∧ ¬(c = '\x7b') ∧ ¬(c = '[') ∧ ¬(c = 'n') ∧ ¬(c = 't') ∧
      ¬(c = 'f') := by
  rcases h with hd | hm
  · refine ⟨?_, ?_, ?_, ?_, ?_, ?_⟩ <;>
      (intro h; rw [h] at hd; exact absurd hd (by decide))
  · subst hm
    refine ⟨by decide, by decide, by decide, by decide, by decide, by decide⟩

theorem skipWs_space (l : List Char) : skipWs (' ' :: l) = skipWs l := by
  simp [skipWs, List.dropWhile_cons, wsChar]

theorem skipWs_of_head {l : List Char}
    (h : ∀ c, l.head? = some c → wsChar c = false) : skipWs l = l := by
  cases l with
  | nil => rfl
  | cons c r => exact skipWs_not_ws r (h c rfl)

theorem pVal_cons (g : Nat) (c : Char) (r : List Char) :
    pVal (g + 1) (c :: r) =
      (if c = '"' then wrapRes (fun s => Json.str (String.mk s)) (pString r)
       else if c = '\x7b' then pObjBody (pVal g) g (skipWs r)
       else if c = '[' then pArrBody (pVal g) g (skipWs r)
       else if c = 'n' then pNull r
       else if c = 't' then pTrue r
       else if c = 'f' then pFalse r
       else wrapRes Json.int (pNum (c :: r))) := by
  rw [pVal]

theorem encItems_cons_decomp (y : Json) (tl : List Json) :
    ∃ t, encItems (y :: tl) = encVal y ++ t := by
  cases tl with
  | nil => exact ⟨[], by simp [encItems]⟩
  | cons m tl2 => exact ⟨',' :: ' ' :: encItems (m :: tl2), by simp [encItems]⟩

theorem skipWs_encItems (y : Json) (tl : List Json) (after : List Char) :
    skipWs (encItems (y :: tl) ++ after) = encItems (y :: tl) ++ after := by
  obtain ⟨t, ht⟩ := encItems_cons_decomp y tl
  obtain ⟨c0, cs0, hc0⟩ := List.exists_cons_of_ne_nil (encVal_ne_nil y)
  apply skipWs_of_head
  intro c hc
  rw [ht, hc0] at hc
  simp at hc
  rw [← hc]
  exact encVal_head_not_ws y c0 (by rw [hc0]; rfl)

theorem pItems_encItems : ∀ (xs : List Json) (g F : Nat) (rest : List Char),
    (∀ x, x ∈ xs → ∀ f2 rest2, (encVal x ++ rest2).length < f2 → GoodTail rest2 →
      pVal f2 (encVal x ++ rest2) = some (x, rest2)) →
    (encItems xs ++ ']' :: rest).length ≤ g →
    (encItems xs ++ ']' :: rest).length < F →
    xs ≠ [] →
    pItems (pVal F) g (encItems xs ++ ']' :: rest) = some (xs, rest)
  | [], _, _, _, _, _, _, hne => absurd rfl hne
  | [x], g, F, rest, hpv, hg, hF, _ => by
    cases g with
    | zero => simp at hg
    | succ g2 =>
      rw [show encItems [x] = encVal x from by simp [encItems]] at hg hF ⊢
      rw [pItems]
      have hx := hpv x (by simp) F (']' :: rest) hF
        (goodTail_cons (by decide) rest)
      simp only [hx]
      rw [skipWs_not_ws _ (by decide)]
      simp [pItemsTail]
  | x :: y :: tl, g, F, rest, hpv, hg, hF, _ => by
    cases g with
    | zero => simp at hg
    | succ g2 =>
      have hrw : encItems (x :: y :: tl) ++ ']' :: rest =
          encVal x ++ (',' :: ' ' :: (encItems (y :: tl) ++ ']' :: rest)) := by
        simp [encItems]
      rw [hrw, pItems]
      have hx := hpv x (by simp) F (',' :: ' ' :: (encItems (y :: tl) ++ ']' :: rest))
        (by rw [← hrw]; exact hF) (goodTail_cons (by decide) _)
      simp only [hx]
      rw [skipWs_not_ws _ (by decide)]
      have hxlen : 1 ≤ (encVal x).length :=
        List.length_pos.mpr (encVal_ne_nil x)
      have hlen2 : (encItems (y :: tl) ++ ']' :: rest).length ≤ g2 := by
        have := congrArg List.length hrw
        simp only [List.length_append, List.length_cons] at this hg ⊢
        omega
      have hlenF : (encItems (y :: tl) ++ ']' :: rest).length < F := by
        have := congrArg List.length hrw
        simp only [List.length_append, List.length_cons] at this hF ⊢
        omega
      have ih := pItems_encItems (y :: tl) g2 F rest
        (fun x2 hx2 => hpv x2 (by simp [hx2])) hlen2 hlenF (by simp)
      simp only [pItemsTail, Char.reduceEq, reduceIte]
      rw [skipWs_space, skipWs_encItems, ih]

theorem skipWs_encVal (v : Json) (after : List Char) :
    skipWs (encVal v ++ after) = encVal v ++ after := by
  obtain ⟨c0, cs0, hc0⟩ := List.exists_cons_of_ne_nil (encVal_ne_nil v)
  apply skipWs_of_head
  intro c hc
  rw [hc0] at hc
  simp at hc
  rw [← hc]
  exact encVal_head_not_ws v c0 (by rw [hc0]; rfl)

theorem encMembers_cons_head (m : String × Json) (tl : List (String × Json)) :
    ∃ t, encMembers (m :: tl) = '"' :: t := by
  obtain ⟨k, v⟩ := m
  cases tl with
  | nil => exact ⟨escList k.data ++ '"' :: ':' :: ' ' :: encVal v, by simp [encMembers]⟩
  | cons m2 tl2 =>
    exact ⟨escList k.data ++ '"' :: ':' :: ' ' :: encVal v ++
      ',' :: ' ' :: encMembers (m2 :: tl2), by simp [encMembers]⟩

theorem skipWs_encMembers (m : String × Json) (tl : List (String × Json))
    (after : List Char) :
    skipWs (encMembers (m :: tl) ++ after) = encMembers (m :: tl) ++ after := by
  obtain ⟨t, ht⟩ := encMembers_cons_head m tl
  rw [ht]
  exact skipWs_not_ws _ (by decide)

theorem pMembers_encMembers : ∀ (kvs : List (String × Json)) (g F : Nat)
    (rest : List Char),
    (∀ k v, (k, v) ∈ kvs → ∀ f2 rest2, (encVal v ++ rest2).length < f2 →
      GoodTail rest2 → pVal f2 (encVal v ++ rest2) = some (v, rest2)) →
    (encMembers kvs ++ '\x7d' :: rest).length ≤ g →
    (encMembers kvs ++ '\x7d' :: rest).length < F →
    kvs ≠ [] →
    pMembers (pVal F) g (encMembers kvs ++ '\x7d' :: rest) = some (kvs, rest)
  | [], _, _, _, _, _, _, hne => absurd rfl hne
  | [(k, v)], g, F, rest, hpv, hg, hF, _ => by
    cases g with
    | zero => simp at hg
    | succ g2 =>
      have hrw : encMembers [(k, v)] ++ '\x7d' :: rest =
          '"' :: (escList k.data ++ '"' ::
            (':' :: ' ' :: (encVal v ++ '\x7d' :: rest))) := by
        simp [encMembers]
      rw [hrw, pMembers]
      have hps := pString_escList k.data (':' :: ' ' :: (encVal v ++ '\x7d' :: rest))
      simp only [Char.reduceEq, reduceIte, pString] at hps ⊢
      simp only [hps]
      have hvlen : (encVal v ++ '\x7d' :: rest).length < F := by
        have := congrArg List.length hrw
        simp only [List.length_append, List.length_cons] at this hF ⊢
        omega
      have hv := hpv k v (by simp) F ('\x7d' :: rest) hvlen
        (goodTail_cons (by decide) rest)
      rw [skipWs_not_ws _ (by decide)]
      simp only [pMemberRest, Char.reduceEq, reduceIte]
      rw [skipWs_space, skipWs_encVal]
      simp only [hv]
      rw [skipWs_not_ws _ (by decide)]
      simp [pMembersTail]
  | (k, v) :: m :: tl, g, F, rest, hpv, hg, hF, _ => by
    cases g with
    | zero => simp at hg
    | succ g2 =>
      have hrw : encMembers ((k, v) :: m :: tl) ++ '\x7d' :: rest =
          '"' :: (escList k.data ++ '"' ::
            (':' :: ' ' :: (encVal v ++
              ',' :: ' ' :: (encMembers (m :: tl) ++ '\x7d' :: rest)))) := by
        simp [encMembers]
      rw [hrw, pMembers]
      have hps := pString_escList k.data
        (':' :: ' ' :: (encVal v ++ ',' :: ' ' :: (encMembers (m :: tl) ++ '\x7d' :: rest)))
      simp only [Char.reduceEq, reduceIte, pString] at hps ⊢
      simp only [hps]
      have hvlen : (encVal v ++
          ',' :: ' ' :: (encMembers (m :: tl) ++ '\x7d' :: rest)).length < F := by
        have := congrArg List.length hrw
        simp only [List.length_append, List.length_cons] at this hF ⊢
        omega
      have hv := hpv k v (by simp) F
        (',' :: ' ' :: (encMembers (m :: tl) ++ '\x7d' :: rest)) hvlen
        (goodTail_cons (by decide) _)
      rw [skipWs_not_ws _ (by decide)]
      simp only [pMemberRest, Char.reduceEq, reduceIte]
      rw [skipWs_space, skipWs_encVal]
      simp only [hv]
      rw [skipWs_not_ws _ (by decide)]
      have hlen2 : (encMembers (m :: tl) ++ '\x7d' :: rest).length ≤ g2 := by
        have := congrArg List.length hrw
        simp only [List.length_append, List.length_cons] at this hg ⊢
        omega
      have hlenF : (encMembers (m :: tl) ++ '\x7d' :: rest).length < F := by
        have := congrArg List.length hrw
        simp only [List.length_append, List.length_cons] at this hF ⊢
        omega
      have ih := pMembers_encMembers (m :: tl) g2 F rest
        (fun k2 v2 hkv2 => hpv k2 v2 (by simp [hkv2])) hlen2 hlenF (by simp)
      simp only [pMembersTail, Char.reduceEq, reduceIte]
      rw [skipWs_space, skipWs_encMembers, ih]

theorem encVal_head_ne_closers (v : Json) :
    ∀ c, (encVal v).head? = some c → ¬(c = ']') ∧ ¬(c = '\x7d') := by
  intro c hc
  cases v with
  | null => simp [encVal] at hc; subst hc; exact ⟨by decide, by decide⟩
  | bool b => cases b <;> (simp [encVal] at hc; subst hc; exact ⟨by decide, by decide⟩)
  | int n =>
    simp only [encVal] at hc
    rcases intChars_head_digit_or_minus n c hc with hd | hm
    · exact ⟨fun h => by rw [h] at hd; exact absurd hd (by decide),
        fun h => by rw [h] at hd; exact absurd hd (by decide)⟩
    · subst hm; exact ⟨by decide, by decide⟩
  | str s => simp [encVal] at hc; subst hc; exact ⟨by decide, by decide⟩
  | arr xs => simp [encVal] at hc; subst hc; exact ⟨by decide, by decide⟩
  | obj kvs => simp [encVal] at hc; subst hc; exact ⟨by decide, by decide⟩

theorem pVal_encVal : ∀ (v : Json), ∀ (f : Nat) (rest : List Char),
    (encVal v ++ rest).length < f → GoodTail rest →
    pVal f (encVal v ++ rest) = some (v, rest) := by
  refine json_ind _ ?hnull ?hbool ?hint ?hstr ?harr ?hobj
  case hnull =>
    intro f rest hf hgt
    rw [show encVal Json.null ++ rest = 'n' :: 'u' :: 'l' :: 'l' :: rest by
      simp [encVal]] at hf ⊢
    cases f with
    | zero => exact absurd hf (by simp)
    | succ g => rw [pVal_cons]; simp [pNull]
  case hbool =>
    intro b f rest hf hgt
    cases b with
    | true =>
      rw [show encVal (Json.bool true) ++ rest = 't' :: 'r' :: 'u' :: 'e' :: rest by
        simp [encVal]] at hf ⊢
      cases f with
      | zero => exact absurd hf (by simp)
      | succ g => rw [pVal_cons]; simp [pTrue]
    | false =>
      rw [show encVal (Json.bool false) ++ rest =
        'f' :: 'a' :: 'l' :: 's' :: 'e' :: rest by simp [encVal]] at hf ⊢
      cases f with
      | zero => exact absurd hf (by simp)
      | succ g => rw [pVal_cons]; simp [pFalse]
  case hint =>
    intro n f rest hf hgt
    obtain ⟨c, cs, hcons⟩ := List.exists_cons_of_ne_nil (intChars_ne_nil n)
    have hdm := intChars_head_digit_or_minus n c (by rw [hcons]; rfl)
    obtain ⟨d1, d2, d3, d4, d5, d6⟩ := digit_or_minus_dispatch c hdm
    rw [show encVal (Json.int n) = intChars n by simp [encVal], hcons] at hf ⊢
    cases f with
    | zero => exact absurd hf (by simp)
    | succ g =>
      rw [List.cons_append, pVal_cons,
        if_neg d1, if_neg d2, if_neg d3, if_neg d4, if_neg d5, if_neg d6,
        ← List.cons_append, ← hcons]
      rw [pNum_intChars n rest hgt]
      rfl
  case hstr =>
    intro s f rest hf hgt
    rw [show encVal (Json.str s) ++ rest =
      '"' :: (escList s.data ++ '"' :: rest) by simp [encVal]] at hf ⊢
    cases f with
    | zero => exact absurd hf (by simp)
    | succ g =>
      rw [pVal_cons]
      simp only [Char.reduceEq, reduceIte]
      have hps := pString_escList s.data rest
      rw [hps]
      rfl
  case harr =>
    intro xs ih f rest hf hgt
    cases xs with
    | nil =>
      rw [show encVal (Json.arr []) ++ rest = '[' :: ']' :: rest by
        simp [encVal, encItems]] at hf ⊢
      cases f with
      | zero => exact absurd hf (by simp)
      | succ g =>
        rw [pVal_cons]
        simp only [Char.reduceEq, reduceIte]
        rw [skipWs_not_ws _ (by decide)]
        simp [pArrBody]
    | cons y tl =>
      rw [show encVal (Json.arr (y :: tl)) ++ rest =
        '[' :: (encItems (y :: tl) ++ ']' :: rest) by simp [encVal]] at hf ⊢
      cases f with
      | zero => exact absurd hf (by simp)
      | succ g =>
        rw [pVal_cons]
        simp only [Char.reduceEq, reduceIte]
        rw [skipWs_encItems]
        obtain ⟨t, ht⟩ := encItems_cons_decomp y tl
        obtain ⟨c0, cs0, hc0⟩ := List.exists_cons_of_ne_nil (encVal_ne_nil y)
        have hhd : (encItems (y :: tl) ++ ']' :: rest) =
            c0 :: (cs0 ++ t ++ ']' :: rest) := by
          rw [ht, hc0]; simp
        have hne := encVal_head_ne_closers y c0 (by rw [hc0]; rfl)
        have hlen : (encItems (y :: tl) ++ ']' :: rest).length ≤ g ∧
            (encItems (y :: tl) ++ ']' :: rest).length < g := by
          simp only [List.length_cons, List.length_append] at hf ⊢
          omega
        have hitems := pItems_encItems (y :: tl) g g rest ih hlen.1 hlen.2 (by simp)
        rw [hhd]
        rw [pArrBody]
        rw [if_neg hne.1]
        rw [← hhd, hitems]
        rfl
  case hobj =>
    intro kvs ih f rest hf hgt
    cases kvs with
    | nil =>
      rw [show encVal (Json.obj []) ++ rest = '\x7b' :: '\x7d' :: rest by
        simp [encVal, encMembers]] at hf ⊢
      cases f with
      | zero => exact absurd hf (by simp)
      | succ g =>
        rw [pVal_cons]
        simp only [Char.reduceEq, reduceIte]
        rw [skipWs_not_ws _ (by decide)]
        simp [pObjBody]
    | cons m tl =>
      rw [show encVal (Json.obj (m :: tl)) ++ rest =
        '\x7b' :: (encMembers (m :: tl) ++ '\x7d' :: rest) by simp [encVal]] at hf ⊢
      cases f with
      | zero => exact absurd hf (by simp)
      | succ g =>
        rw [pVal_cons]
        simp only [Char.reduceEq, reduceIte]
        rw [skipWs_encMembers]
        obtain ⟨t, ht⟩ := encMembers_cons_head m tl
        have hhd : (encMembers (m :: tl) ++ '\x7d' :: rest) =
            '"' :: (t ++ '\x7d' :: rest) := by
          rw [ht]; simp
        have hlen : (encMembers (m :: tl) ++ '\x7d' :: rest).length ≤ g ∧
            (encMembers (m :: tl) ++ '\x7d' :: rest).length < g := by
          simp only [List.length_cons, List.length_append] at hf ⊢
          omega
        have hmem := pMembers_encMembers (m :: tl) g g rest
          (fun k v hkv => ih k v hkv) hlen.1 hlen.2 (by simp)
        rw [hhd]
        rw [pObjBody]
        rw [if_neg (by decide : ¬(('"' : Char) = '\x7d'))]
        rw [← hhd, hmem]
        rfl

theorem jsonLoads_jsonDumps (v : Json) : jsonLoads (jsonDumps v) = Except.ok v := by
  have h := pVal_encVal v ((encVal v).length + 1) [] (by simp) goodTail_nil
  rw [List.append_nil] at h
  simp only [jsonLoads, jsonDumps]
  rw [skipWs_of_head (encVal_head_not_ws v), h]
  simp [skipWs]

theorem lookup_cons_self {β : Type} (k : String) (v : β) (l : List (String × β)) :
    List.lookup k ((k, v) :: l) = some v := by
  simp [List.lookup]

theorem jsonDumps_ne_empty (v : Json) : jsonDumps v ≠ "" := by
  intro h
  have h2 := congrArg String.data h
  rw [show (jsonDumps v).data = encVal v from rfl,
    show ("" : String).data = [] from rfl] at h2
  exact encVal_ne_nil v h2

theorem save_state_ok (token : Option String) (state : Json) (db : RedisDB) :
    ∀ healthy, save_state token state db healthy =
      Except.ok (if healthy
        then RedisDB.mk ((state_key token, jsonDumps state) :: db.kv) db.hashes
        else db) := by
  intro healthy
  cases healthy <;> simp [save_state, redis_set]

theorem update_status_eq (token : Option String) (db : RedisDB) (healthy : Bool)
    (s : String) (e w : Option String) :
    update_status token db healthy s e w =
      (s, if healthy
        then RedisDB.mk db.kv ((status_key token, StatusRecord.mk s e w) :: db.hashes)
        else db) := by
  cases healthy <;> simp [update_status, redis_hmset]

theorem load_state_ok_exists (token : Option String) (db : RedisDB)
    (healthy : Bool) : ∃ v, load_state token db healthy = Except.ok v := by
  cases healthy with
  | false =>
    exact ⟨Json.obj [], by simp [load_state, redis_get, Bind.bind, Except.bind,
      pure, Except.pure, Functor.map, Except.map]⟩
  | true =>
    cases hlk : db.kv.lookup (state_key token) with
    | none =>
      exact ⟨Json.obj [], by simp [load_state, redis_get, Bind.bind, Except.bind,
        pure, Except.pure, Functor.map, Except.map, hlk]⟩
    | some s =>
      by_cases hs : s = ""
      · exact ⟨Json.obj [], by simp [load_state, redis_get, Bind.bind, Except.bind,
          pure, Except.pure, Functor.map, Except.map, hlk, hs]⟩
      · cases hjs : jsonLoads s with
        | ok v =>
          exact ⟨v, by simp [load_state, redis_get, Bind.bind, Except.bind,
            pure, Except.pure, Functor.map, Except.map, hlk, hs, hjs]⟩
        | error e =>
          exact ⟨Json.obj [], by simp [load_state, redis_get, Bind.bind, Except.bind,
            pure, Except.pure, Functor.map, Except.map, hlk, hs, hjs]⟩

/-- C1: whenever the state get fails — the connection is unreachable, the
key is absent, or the stored payload is malformed JSON — `_load_state`
returns the empty mapping `{}`, and in every circumstance it returns
normally (`Except.ok`), never propagating an exception to its caller. -/
theorem C1_load_state_failure_safe (token : Option String) (db : RedisDB) :
    (load_state token db false = Except.ok (Json.obj [])) ∧
    (db.kv.lookup (state_key token) = none →
      load_state token db true = Except.ok (Json.obj [])) ∧
    (∀ s e, db.kv.lookup (state_key token) = some s → s ≠ "" →
      jsonLoads s = Except.error e →
      load_state token db true = Except.ok (Json.obj [])) ∧
    (∀ healthy, ∃ v, load_state token db healthy = Except.ok v) := by
  refine ⟨?conn, ?absent, ?malformed, ?total⟩
  case conn => simp [load_state, redis_get, Bind.bind, Except.bind, pure, Except.pure, Functor.map, Except.map]
  case absent =>
    intro h
    simp [load_state, redis_get, Bind.bind, Except.bind, pure, Except.pure, Functor.map, Except.map, h]
  case malformed =>
    intro s e hlk hne herr
    simp [load_state, redis_get, Bind.bind, Except.bind, pure, Except.pure, Functor.map, Except.map, hlk, hne, herr]
  case total =>
    intro healthy
    exact load_state_ok_exists token db healthy

theorem C1_witness :
    load_state (some "T") ⟨[], []⟩ false = Except.ok (Json.obj []) ∧
    load_state (some "T") ⟨[], []⟩ true = Except.ok (Json.obj []) ∧
    load_state (some "T") ⟨[("bot_state:T", "oops")], []⟩ true =
      Except.ok (Json.obj []) :=
  ⟨(C1_load_state_failure_safe (some "T") ⟨[], []⟩).1,
   (C1_load_state_failure_safe (some "T") ⟨[], []⟩).2.1 rfl,
   (C1_load_state_failure_safe (some "T") ⟨[("bot_state:T", "oops")], []⟩).2.2.1
     "oops" (PyErr.valueError "Expecting value") rfl (by decide) rfl⟩

/-- C2: saving a JSON mapping as the bot state and then loading it back
(with no intervening write to the state key, over a healthy store)
returns exactly the same mapping. -/
theorem C2_save_load_roundtrip (token : Option String)
    (kvs : List (String × Json)) (db : RedisDB) :
    (save_state token (Json.obj kvs) db true).bind
      (fun db2 => load_state token db2 true) = Except.ok (Json.obj kvs) := by
  rw [save_state_ok token (Json.obj kvs) db true]
  simp only [if_pos, reduceIte, Except.bind]
  simp [load_state, redis_get, Bind.bind, Except.bind, pure, Except.pure, Functor.map, Except.map, lookup_cons_self,
    jsonDumps_ne_empty (Json.obj kvs), jsonLoads_jsonDumps (Json.obj kvs)]

/-- C3 counterexample: with a healthy store and a successful `start`, `run`
itself performs no StatusRecord transition to "running": after `run` has
started the bot and blocked (here until interruption), the in-memory
status still reads "starting" and no status record was ever written by
`run`. -/
theorem C3_counterexample :
    (run (some "T") (Json.obj []) "starting" ⟨[], []⟩ true none
      PyErr.keyboardInterrupt none).trace =
      [RunStep.callStart, RunStep.loopForever, RunStep.saveState,
        RunStep.callStop, RunStep.closeLoop] ∧
    ((run (some "T") (Json.obj []) "starting" ⟨[], []⟩ true none
      PyErr.keyboardInterrupt none).trace.any
        (RunStep.isStatusWriteOf "running") = false) ∧
    (run (some "T") (Json.obj []) "starting" ⟨[], []⟩ true none
      PyErr.keyboardInterrupt none).botStatus = "starting" ∧
    (run (some "T") (Json.obj []) "starting" ⟨[], []⟩ true none
      PyErr.keyboardInterrupt none).db.hashes = [] :=
  ⟨rfl, rfl, rfl, rfl⟩

/-- C3 amended: `run` invokes `start` and then blocks on the event loop;
the transition of the StatusRecord to "running" is left to the concrete
`start` implementation — `run` itself never writes a "running" status
(its only status write is "error", on the unhandled-failure path). -/
theorem C3_amended_no_running_write (token : Option String) (state : Json)
    (st : String) (db : RedisDB) (healthy : Bool) (startErr : Option PyErr)
    (loopExc : PyErr) (stopErr : Option PyErr) :
    ((run token state st db healthy none loopExc stopErr).trace.take 2 =
      [RunStep.callStart, RunStep.loopForever]) ∧
    ((run token state st db healthy startErr loopExc stopErr).trace.any
      (RunStep.isStatusWriteOf "running") = false) := by
  constructor
  · cases hki : loopExc.isKeyboardInterrupt <;>
      simp [run, hki, save_state_ok, update_status_eq]
  · cases startErr with
    | none =>
      cases hki : loopExc.isKeyboardInterrupt <;>
        simp [run, hki, save_state_ok, update_status_eq, RunStep.isStatusWriteOf]
    | some e =>
      cases hki : e.isKeyboardInterrupt <;>
        simp [run, hki, save_state_ok, update_status_eq, RunStep.isStatusWriteOf]

/-- C4: on the interruption signal, `run` first saves the bot state via
`_save_state`, then invokes the abstract `stop`, then returns (raising
nothing when `stop` succeeds); with a healthy store the state key is
written; and the state save happens exactly on the interruption paths —
never on the unhandled-error path (there is no normal-exit path: the loop
blocks until an exception arrives). -/
theorem C4_interrupt_saves_then_stops (token : Option String) (state : Json)
    (st : String) (db : RedisDB) (healthy : Bool) (stopErr : Option PyErr)
    (loopExc : PyErr) :
    ((run token state st db healthy none PyErr.keyboardInterrupt stopErr).trace =
      [RunStep.callStart, RunStep.loopForever, RunStep.saveState,
        RunStep.callStop, RunStep.closeLoop]) ∧
    ((run token state st db healthy (some PyErr.keyboardInterrupt) loopExc
        stopErr).trace =
      [RunStep.callStart, RunStep.saveState, RunStep.callStop,
        RunStep.closeLoop]) ∧
    ((run token state st db healthy none PyErr.keyboardInterrupt none).raised =
      none) ∧
    ((run token state st db true none PyErr.keyboardInterrupt stopErr).db.kv =
      (state_key token, jsonDumps state) :: db.kv) ∧
    (∀ startErr loopExc2 stopErr2,
      (run token state st db healthy startErr loopExc2 stopErr2).trace.count
          RunStep.saveState =
        if interruptSeen startErr loopExc2 then 1 else 0) := by
  refine ⟨?blocked, ?during, ?returns, ?written, ?only⟩
  case blocked => simp [run, PyErr.isKeyboardInterrupt, save_state_ok]
  case during => simp [run, PyErr.isKeyboardInterrupt, save_state_ok]
  case returns => simp [run, PyErr.isKeyboardInterrupt, save_state_ok]
  case written => simp [run, PyErr.isKeyboardInterrupt, save_state_ok]
  case only =>
    intro startErr loopExc2 stopErr2
    cases startErr with
    | none =>
      cases hki : loopExc2.isKeyboardInterrupt <;>
        simp [run, hki, interruptSeen, save_state_ok, update_status_eq,
          List.count_cons, List.count_nil]
    | some e =>
      cases hki : e.isKeyboardInterrupt <;>
        simp [run, hki, interruptSeen, save_state_ok, update_status_eq,
          List.count_cons, List.count_nil]

/-- C5: on any unhandled failure other than the interruption signal —
during `start` or while blocked — `run` records status "error" with the
failure's description in the StatusRecord hash (when the store is
reachable), updates the in-memory status, performs no state save, and
leaves the persisted BotState key untouched. -/
theorem C5_error_path_no_save (token : Option String) (state : Json)
    (st : String) (db : RedisDB) (stopErr : Option PyErr) (loopExc : PyErr)
    (e : PyErr) (hki : e.isKeyboardInterrupt = false) :
    ((run token state st db true none e stopErr).trace =
      [RunStep.callStart, RunStep.loopForever, RunStep.logRunError,
        RunStep.statusWrite "error" (some (pyStr e)), RunStep.closeLoop]) ∧
    ((run token state st db true none e stopErr).botStatus = "error") ∧
    ((run token state st db true none e stopErr).db.kv = db.kv) ∧
    ((run token state st db true none e stopErr).db.hashes =
      (status_key token, StatusRecord.mk "error" (some (pyStr e)) none) ::
        db.hashes) ∧
    ((run token state st db true (some e) loopExc stopErr).trace =
      [RunStep.callStart, RunStep.logRunError,
        RunStep.statusWrite "error" (some (pyStr e)), RunStep.closeLoop]) ∧
    (∀ healthy,
      (run token state st db healthy none e stopErr).trace.count
        RunStep.saveState = 0 ∧
      (run token state st db healthy none e stopErr).db.kv = db.kv ∧
      (run token state st db healthy (some e) loopExc stopErr).db.kv = db.kv) := by
  refine ⟨?t1, ?t2, ?t3, ?t4, ?t5, ?t6⟩
  case t1 => simp [run, hki, update_status_eq]
  case t2 => simp [run, hki, update_status_eq]
  case t3 => simp [run, hki, update_status_eq]
  case t4 => simp [run, hki, update_status_eq]
  case t5 => simp [run, hki, update_status_eq]
  case t6 =>
    intro healthy
    cases healthy <;> (refine ⟨?_, ?_, ?_⟩ <;>
      simp [run, hki, update_status_eq, List.count_cons, List.count_nil])

theorem C5_witness :
    (run (some "T") (Json.obj []) "starting" ⟨[], []⟩ true none
      (PyErr.runtimeError "boom") none).trace =
      [RunStep.callStart, RunStep.loopForever, RunStep.logRunError,
        RunStep.statusWrite "error" (some "boom"), RunStep.closeLoop] ∧
    (run (some "T") (Json.obj []) "starting" ⟨[], []⟩ true none
      (PyErr.runtimeError "boom") none).db.hashes =
      [("bot:T", StatusRecord.mk "error" (some "boom") none)] :=
  ⟨(C5_error_path_no_save (some "T") (Json.obj []) "starting" ⟨[], []⟩ none
      PyErr.connectionError (PyErr.runtimeError "boom") rfl).1,
   (C5_error_path_no_save (some "T") (Json.obj []) "starting" ⟨[], []⟩ none
      PyErr.connectionError (PyErr.runtimeError "boom") rfl).2.2.2.1⟩

/-- C6: `update_status` issues a single hash bulk write to the key
`"bot:" + BOT_TOKEN` carrying exactly the three fields
`status` / `error` / `webhook_url` (the string-key side of the store is
untouched), and reading the record back immediately shows those fields;
in particular after `update_status("running")` the record reads
`status = "running"`, `error = None`. -/
theorem C6_update_status_single_hash_write (token : Option String)
    (db : RedisDB) (s : String) (e w : Option String) :
    (update_status token db true s e w =
      (s, RedisDB.mk db.kv
        ((status_key token, StatusRecord.mk s e w) :: db.hashes))) ∧
    ((update_status token db true s e w).2.hashes.lookup (status_key token) =
      some (StatusRecord.mk s e w)) ∧
    ((update_status token db true s e w).2.kv = db.kv) ∧
    ((update_status token db true "running" none none).2.hashes.lookup
        (status_key token) = some (StatusRecord.mk "running" none none)) := by
  refine ⟨?eq, ?readback, ?kv, ?running⟩
  case eq => rw [update_status_eq]; simp
  case readback => rw [update_status_eq]; simp [lookup_cons_self]
  case kv => rw [update_status_eq]; simp
  case running => rw [update_status_eq]; simp [lookup_cons_self]

/-- C7: a store failure inside `_save_state` or `update_status` is caught
and logged, the write is discarded (the store is left exactly as it was),
and neither operation propagates the store exception: `_save_state`
returns normally for every store condition. -/
theorem C7_store_failures_swallowed (token : Option String) (state : Json)
    (db : RedisDB) (s : String) (e w : Option String) :
    (save_state token state db false = Except.ok db) ∧
    (update_status token db false s e w = (s, db)) ∧
    (∀ healthy, ∃ db2, save_state token state db healthy = Except.ok db2) := by
  refine ⟨?save, ?status, ?total⟩
  case save => rw [save_state_ok]; simp
  case status => rw [update_status_eq]; simp
  case total => intro healthy; exact ⟨_, save_state_ok token state db healthy⟩

/-- C8: constructing a concrete bot that overrides neither `start` nor
`stop` succeeds — `__init__` never invokes them — and the
NotImplementedError is raised only when the un-overridden operation is
actually invoked: on the interruption path `run` still saves state and
calls `stop`, and only then does the abstract-method error propagate out
of `run`. -/
theorem C8_abstract_method_error_on_invoke (t : String) (db : RedisDB)
    (healthy : Bool) (out : Option PyErr) (token : Option String)
    (state : Json) (st : String) :
    (t ≠ "" → ∃ b, construct (some t) db healthy = Except.ok b) ∧
    (invoke_abstract false out = some PyErr.notImplementedError) ∧
    ((run token state st db healthy none PyErr.keyboardInterrupt
        (invoke_abstract false out)).raised = some PyErr.notImplementedError) ∧
    ((run token state st db healthy none PyErr.keyboardInterrupt
        (invoke_abstract false out)).trace =
      [RunStep.callStart, RunStep.loopForever, RunStep.saveState,
        RunStep.callStop, RunStep.closeLoop]) := by
  refine ⟨?cons, ?invoke, ?raised, ?trace⟩
  case cons =>
    intro ht
    obtain ⟨v, hv⟩ := load_state_ok_exists (some t) db healthy
    exact ⟨⟨v, "starting"⟩, by
      simp [construct, build_application, ht, hv, Bind.bind, Except.bind]⟩
  case invoke => simp [invoke_abstract]
  case raised => simp [run, PyErr.isKeyboardInterrupt, save_state_ok, invoke_abstract]
  case trace => simp [run, PyErr.isKeyboardInterrupt, save_state_ok]

theorem C8_witness :
    (∃ b, construct (some "T") ⟨[], []⟩ true = Except.ok b) ∧
    invoke_abstract false none = some PyErr.notImplementedError :=
  ⟨(C8_abstract_method_error_on_invoke "T" ⟨[], []⟩ true none (some "T")
      (Json.obj []) "starting").1 (by decide),
   (C8_abstract_method_error_on_invoke "T" ⟨[], []⟩ true none (some "T")
      (Json.obj []) "starting").2.1⟩

/-- C9: `update_status` assigns the in-memory `_status` before attempting
the store write, so the new status is in force even when the write fails:
the status transition is not atomic with the store write. -/
theorem C9_status_set_before_write (token : Option String) (db : RedisDB)
    (healthy : Bool) (s : String) (e w : Option String) :
    ((update_status token db healthy s e w).1 = s) ∧
    (update_status token db false s e w = (s, db)) := by
  constructor
  · rw [update_status_eq]
  · rw [update_status_eq]; simp

/-- C10: when the state get succeeds with a non-empty payload that parses
as JSON, `_load_state` returns exactly the decoded value with no check
that it is a mapping — a stored JSON list loads as a non-mapping bot
state — while a present-but-empty payload short-circuits to the empty
mapping. -/
theorem C10_no_mapping_validation (token : Option String) (db : RedisDB) :
    (∀ s v, db.kv.lookup (state_key token) = some s → s ≠ "" →
      jsonLoads s = Except.ok v → load_state token db true = Except.ok v) ∧
    (db.kv.lookup (state_key token) = some "" →
      load_state token db true = Except.ok (Json.obj [])) ∧
    (load_state (some "T") ⟨[("bot_state:T", "[1, 2]")], []⟩ true =
      Except.ok (Json.arr [Json.int 1, Json.int 2])) ∧
    (Json.isObj (Json.arr [Json.int 1, Json.int 2]) = false) := by
  refine ⟨?gen, ?empty, rfl, rfl⟩
  case gen =>
    intro s v hlk hs hjs
    simp [load_state, redis_get, Bind.bind, Except.bind, pure, Except.pure,
      Functor.map, Except.map, hlk, hs, hjs]
  case empty =>
    intro h
    simp [load_state, redis_get, Bind.bind, Except.bind, pure, Except.pure,
      Functor.map, Except.map, h]

theorem C10_witness :
    load_state (some "T") ⟨[("bot_state:T", "[7]")], []⟩ true =
      Except.ok (Json.arr [Json.int 7]) ∧
    load_state (some "T") ⟨[("bot_state:T", "")], []⟩ true =
      Except.ok (Json.obj []) :=
  ⟨(C10_no_mapping_validation (some "T") ⟨[("bot_state:T", "[7]")], []⟩).1
      "[7]" (Json.arr [Json.int 7]) rfl (by decide) rfl,
   (C10_no_mapping_validation (some "T") ⟨[("bot_state:T", "")], []⟩).2.1 rfl⟩
